import Mathlib

/-!
Verification development for the slang semantic-core headers:
`slang/util/Bag.h`, `slang/ast/SemanticModel.h`, `slang/ast/FormatHelpers.h`.

`Bag.h` is implemented inline in the header and is embedded directly.
`SemanticModel.h` and `FormatHelpers.h` only declare their interfaces in this
repository; the behavior of those operations is modelled from the spec
(each such definition carries a doc comment starting `Modelled from the spec:`).
-/

namespace Slang

/-! ## Bag (`slang/util/Bag.h`, implemented inline in the header)

The C++ `Bag` holds `std::unordered_map<std::string, std::any> items`, keyed
by `typeKey<T>() = typeid(T).name()` (one unique string per type).  We
abstract the key strings to a type `κ` with decidable equality (one key per
C++ type) and let `V k` be the value type the C++ code stores under key `k`.
-/

/-- Models one `std::any` slot: a value together with the type it was stored
as.  `std::any_cast<T>` succeeds only when the stored tag is `T`. -/
structure AnyVal (κ : Type) (V : κ → Type) where
  tag : κ
  val : V tag

/-- Models `slang::Bag`: the `items` map, as an association list (the C++
`unordered_map` has exactly one entry per key; order is irrelevant to its
interface). -/
structure Bag (κ : Type) (V : κ → Type) where
  items : List (κ × AnyVal κ V)

/-- `items[key] = value`: replace the entry for `key` if present, else insert
one (C++ `operator[]` followed by assignment). -/
def setEntry {κ : Type} {V : κ → Type} [DecidableEq κ] :
    List (κ × AnyVal κ V) → κ → AnyVal κ V → List (κ × AnyVal κ V)
  | [], k, a => [(k, a)]
  | (k', a') :: rest, k, a =>
    if k' = k then (k, a) :: rest else (k', a') :: setEntry rest k a

/-- `items.find(key)` on the association list. -/
def findEntry {κ : Type} {V : κ → Type} [DecidableEq κ] :
    List (κ × AnyVal κ V) → κ → Option (AnyVal κ V)
  | [], _ => none
  | (k', a) :: rest, k => if k' = k then some a else findEntry rest k

/-- `Bag::set<T>(item)`: `items[typeKey<T>()] = item`. -/
def Bag.set {κ : Type} {V : κ → Type} [DecidableEq κ]
    (b : Bag κ V) (k : κ) (v : V k) : Bag κ V :=
  ⟨setEntry b.items k ⟨k, v⟩⟩

/-- `std::any_cast<T>(&slot)`: yields the payload only when the slot holds a
`T`, otherwise `nullptr` (here `none`). -/
def castVal {κ : Type} {V : κ → Type} [DecidableEq κ]
    (a : AnyVal κ V) (k : κ) : Option (V k) :=
  if h : a.tag = k then some (cast (congrArg V h) a.val) else none

/-- `Bag::get<T>()`: find the entry for `typeKey<T>()`; `nullptr` (`none`) if
absent, otherwise `any_cast<T>` of the stored slot. -/
def Bag.get {κ : Type} {V : κ → Type} [DecidableEq κ]
    (b : Bag κ V) (k : κ) : Option (V k) :=
  match findEntry b.items k with
  | none => none
  | some a => castVal a k

/-- `Bag::getOrDefault<T>()`: `*get<T>()` if present, else a
default-constructed `T()`. -/
def Bag.getOrDefault {κ : Type} {V : κ → Type} [DecidableEq κ]
    [∀ k, Inhabited (V k)] (b : Bag κ V) (k : κ) : V k :=
  match b.get k with
  | some v => v
  | none => default

/-- Whether the map holds an entry for key `k`. -/
def Bag.hasKey {κ : Type} {V : κ → Type} [DecidableEq κ]
    (b : Bag κ V) (k : κ) : Bool :=
  (findEntry b.items k).isSome

/-- `Bag::insertOrGet<T>()`: default-construct and insert if absent, then
return the stored value (paired with the possibly-updated bag). -/
def Bag.insertOrGet {κ : Type} {V : κ → Type} [DecidableEq κ]
    [∀ k, Inhabited (V k)] (b : Bag κ V) (k : κ) : V k × Bag κ V :=
  match b.get k with
  | some v => (v, b)
  | none => (default, b.set k default)

/-! ## SemanticModel (`slang/ast/SemanticModel.h`)

The header declares `withContext(node, symbol)`, the untyped
`getDeclaredSymbol(node)`, nine typed `getDeclaredSymbol` overloads and the
private `flat_hash_map<const SyntaxNode*, const Symbol*> symbolCache`; the
implementations of these members are not part of this repository snapshot, so
their behavior is modelled from the spec.  Syntax-node identity (a `const
SyntaxNode*` used purely as a key) is modelled as a `Nat`; a `Symbol` is its
identity plus the variant it belongs to. -/

/-- The symbol variants named by the typed `getDeclaredSymbol` overloads. -/
inductive SymbolKind
  | compilationUnit
  | hierInstance
  | statementBlock
  | proceduralBlock
  | generateBlock
  | generateBlockArray
  | subroutine
  | enumType
  | typeAlias
deriving DecidableEq, Repr

/-- An elaborated symbol: identity in the symbol arena plus its variant. -/
structure Symbol where
  id : Nat
  kind : SymbolKind
deriving DecidableEq, Repr

/-- Identity of a syntax node (models the `const SyntaxNode*` cache key:
referential identity, not structural equality). -/
abbrev NodeId := Nat

/-- Models `symbolCache : flat_hash_map<const SyntaxNode*, const Symbol*>`
as an association list keyed by node identity. -/
abbrev SymbolCache := List (NodeId × Symbol)

/-- Lookup in the symbol cache by node identity. -/
def cacheLookup : SymbolCache → NodeId → Option Symbol
  | [], _ => none
  | (m, s) :: rest, n => if m = n then some s else cacheLookup rest n

/-- Modelled from the spec: `SemanticModel::withContext(node, symbol)` (whose
definition is not in this snapshot) "records the mapping for future lookups —
this is a write-once memoization"; the invariant "symbols are never replaced"
is realised as first-write-wins: a node that already has an entry keeps it. -/
def withContext (c : SymbolCache) (n : NodeId) (s : Symbol) : SymbolCache :=
  if (cacheLookup c n).isSome then c else (n, s) :: c

/-- Modelled from the spec: the untyped
`SemanticModel::getDeclaredSymbol(node)` (whose definition is not in this
snapshot) "returns the previously cached symbol if present"; absence is a
normal outcome ("no mapping"), not an error, and the lookup itself stores
nothing (the cache never stores negative results). -/
def getDeclaredSymbol (c : SymbolCache) (n : NodeId) : Option Symbol :=
  cacheLookup c n

/-- A cache-populating event of one compilation: elaboration registering a
node's symbol via `withContext`.  (Lookups do not change the cache, so a
compilation history is, for cache purposes, its registration sequence.) -/
inductive SMOp
  | register (n : NodeId) (s : Symbol)
deriving DecidableEq, Repr

/-- Run a sequence of registrations against a starting cache. -/
def runOps : SymbolCache → List SMOp → SymbolCache
  | c, [] => c
  | c, SMOp.register n s :: rest => runOps (withContext c n s) rest

/-- The symbols registered for node `n`, in order, over a history. -/
def regsFor (n : NodeId) (ops : List SMOp) : List Symbol :=
  ops.filterMap fun op =>
    match op with
    | SMOp.register m s => if m = n then some s else none

/-- Modelled from the spec: a typed `getDeclaredSymbol` overload is "a
convenience projection over the single untyped map, not a separate store",
which must "fail loudly on mismatch" instead of silently returning a symbol
of the wrong variant.  `k` is the variant the overload's return type names;
`Except.error` is the loud failure. -/
def getDeclaredSymbolTyped (c : SymbolCache) (n : NodeId) (k : SymbolKind) :
    Except Unit (Option Symbol) :=
  match getDeclaredSymbol c n with
  | none => Except.ok none
  | some s => if s.kind = k then Except.ok (some s) else Except.error ()

/-! ## FmtHelpers (`slang/ast/FormatHelpers.h`)

The header declares `checkDisplayArgs`, `checkSFormatArgs`, `formatArgs`,
`formatDisplay` and `checkFinishNum`; their definitions are not part of this
repository snapshot, so their behavior is modelled from the spec (§4.2).
An `Expression` is reduced to what the binder inspects: its type category,
whether it is a string-literal expression, and its compile-time constant
value when the constant evaluator can produce one (`none` = "not constant",
a normal recoverable outcome). -/

/-- Type category of a bound argument expression: integral, string, or a
type with no default textual representation (e.g. an event type). -/
inductive ArgType
  | int
  | str
  | event
deriving DecidableEq, Repr

/-- A compile-time constant value (the Value Model at the boundary used
here: integral values and text). -/
inductive CValue
  | intV (i : Int)
  | strV (s : String)
deriving DecidableEq, Repr

/-- A bound argument expression as the format binder sees it. -/
structure Expression where
  type : ArgType
  isLiteral : Bool
  const : Option CValue
deriving DecidableEq, Repr

/-- Conversion categories of format directives used here: decimal integer
(`%d`) and string (`%s`). -/
inductive ConvKind
  | dec
  | strConv
deriving DecidableEq, Repr

/-- Modelled from the spec: a Format Directive is "either literal text or a
conversion specifier", "derived from the format-string text at bind time". -/
inductive Directive
  | lit (s : String)
  | conv (k : ConvKind)
deriving DecidableEq, Repr

/-- The conversion character following a `%`. -/
def convOfChar : Char → Option ConvKind
  | 'd' => some ConvKind.dec
  | 's' => some ConvKind.strConv
  | _ => none

/-- Modelled from the spec: `formatArgs` "parses the format string into a
sequence of Format Directives"; an unknown conversion or a trailing `%` is a
diagnosed parse failure. -/
def parseFmt : List Char → Option (List Directive)
  | [] => some []
  | '%' :: c :: rest =>
    match convOfChar c with
    | some k => (parseFmt rest).map fun ds => Directive.conv k :: ds
    | none =>
      if c = '%' then (parseFmt rest).map fun ds => Directive.lit "%" :: ds
      else none
  | ['%'] => none
  | c :: rest => (parseFmt rest).map fun ds => Directive.lit (String.singleton c) :: ds

/-- Modelled from the spec: when `isStringLiteral` is set, "unescaped-quote
and escape-sequence rules of string-literal parsing are re-applied to the
format string before directive parsing". -/
def unescapeChars : List Char → List Char
  | [] => []
  | '\\' :: 'n' :: rest => '\n' :: unescapeChars rest
  | '\\' :: 't' :: rest => '\t' :: unescapeChars rest
  | '\\' :: c :: rest => c :: unescapeChars rest
  | c :: rest => c :: unescapeChars rest

/-- The directives of a format string under the `isStringLiteral` flag. -/
def dirsOf (formatString : String) (isStringLiteral : Bool) :
    Option (List Directive) :=
  parseFmt (if isStringLiteral then unescapeChars formatString.data
            else formatString.data)

/-- Whether an argument of the given type category satisfies a conversion
directive's required category. -/
def typeOk : ConvKind → ArgType → Bool
  | ConvKind.dec, ArgType.int => true
  | ConvKind.strConv, ArgType.str => true
  | _, _ => false

/-- Whether a type category has a defined default textual representation. -/
def displayable : ArgType → Bool
  | ArgType.int => true
  | ArgType.str => true
  | ArgType.event => false

/-- Render one constant value under a conversion directive (the Value
Model's textual conversion at the boundary used here). -/
def renderConv : ConvKind → CValue → Option String
  | ConvKind.dec, CValue.intV i => some (toString i)
  | ConvKind.strConv, CValue.strV s => some s
  | _, _ => none

/-- Render one constant value in its type's default textual form (decimal
for integers, direct text for strings). -/
def defaultRender : ArgType → CValue → Option String
  | ArgType.int, CValue.intV i => some (toString i)
  | ArgType.str, CValue.strV s => some s
  | _, _ => none

/-- The number of conversion directives (the arguments a format string
consumes). -/
def convCount : List Directive → Nat
  | [] => 0
  | Directive.lit _ :: ds => convCount ds
  | Directive.conv _ :: ds => 1 + convCount ds

/-- Modelled from the spec: the binding half of `formatArgs` — "walks
directives and the bound argument list in lockstep; for each conversion
directive, consumes the next argument, checks its type against the
directive's required category"; count mismatches either way are diagnosed
binding failures. -/
def checkDirs : List Directive → List Expression → Bool
  | [], [] => true
  | [], _ :: _ => false
  | Directive.lit _ :: ds, args => checkDirs ds args
  | Directive.conv _ :: _, [] => false
  | Directive.conv k :: ds, a :: as => typeOk k a.type && checkDirs ds as

/-- Modelled from the spec: the folding half of `formatArgs` — renders each
consumed constant argument; "if an argument is not statically evaluable, the
whole result is 'not a compile-time constant' rather than a partial string —
format folding is all-or-nothing", and any binding failure also leaves the
result absent. -/
def foldDirs : List Directive → List Expression → Option String
  | [], [] => some ""
  | [], _ :: _ => none
  | Directive.lit s :: ds, args => (foldDirs ds args).map fun t => s ++ t
  | Directive.conv _ :: _, [] => none
  | Directive.conv k :: ds, a :: as =>
    if typeOk k a.type then
      a.const.bind fun v =>
        (renderConv k v).bind fun txt =>
          (foldDirs ds as).map fun t => txt ++ t
    else none

/-- The two independently observable outcomes of `formatArgs`: whether
binding succeeded (no diagnostics were emitted) and the folded text
(the C++ `optional<std::string>` return value). -/
structure FmtResult where
  bindOk : Bool
  text : Option String
deriving DecidableEq, Repr

/-- Modelled from the spec: `FmtHelpers::formatArgs` — parse the format
string into directives (a parse failure is a diagnosed binding failure),
then check and fold the directives against the argument list in lockstep.
The diagnostic sink, source location and scope are abstracted away;
`bindOk` stands for "no diagnostic was emitted". -/
def formatArgs (formatString : String) (args : List Expression)
    (isStringLiteral : Bool) : FmtResult :=
  match dirsOf formatString isStringLiteral with
  | none => ⟨false, none⟩
  | some ds => ⟨checkDirs ds args, foldDirs ds args⟩

/-- Modelled from the spec: `FmtHelpers::formatDisplay` — "synthesizes the
default concatenated textual form of each argument using built-in per-type
defaults, reusing the same constant-evaluation-or-bail policy as
`formatArgs`" (no directive parsing step). -/
def formatDisplay : List Expression → Option String
  | [] => some ""
  | a :: as =>
    match a.const with
    | none => none
    | some v =>
      match defaultRender a.type v with
      | none => none
      | some txt => (formatDisplay as).map fun t => txt ++ t

/-- Modelled from the spec: `FmtHelpers::checkDisplayArgs` — "each argument
must be of a type with a defined default textual representation", one
diagnostic per ill-typed argument, returning whether the whole list is
well-formed. -/
def checkDisplayArgs (args : List Expression) : Bool :=
  args.all fun a => displayable a.type

/-- Modelled from the spec: `FmtHelpers::checkSFormatArgs` — the first
argument is the format string and must be of string type; when it is a
compile-time string literal, full directive-by-directive validation runs
against the remaining arguments; when it is dynamic, "only argument type
validity (not count/type pairing against directives) can be checked". -/
def checkSFormatArgs (args : List Expression) : Bool :=
  match args with
  | [] => false
  | fmtArg :: rest =>
    decide (fmtArg.type = ArgType.str) &&
      (if fmtArg.isLiteral then
        match fmtArg.const with
        | some (CValue.strV s) =>
          match parseFmt s.data with
          | some ds => checkDirs ds rest
          | none => false
        | _ => rest.all fun a => displayable a.type
      else rest.all fun a => displayable a.type)

/-- Modelled from the spec: `FmtHelpers::checkFinishNum` — the argument
"must be an integral constant in the small closed set of legal control
codes" (0, 1, 2); "anything else is a binding-time error" (rejected). -/
def checkFinishNum (arg : Expression) : Bool :=
  match arg.type, arg.const with
  | ArgType.int, some (CValue.intV i) => decide (i = 0 ∨ i = 1 ∨ i = 2)
  | _, _ => false

theorem findEntry_setEntry_self {κ : Type} {V : κ → Type} [DecidableEq κ]
    (l : List (κ × AnyVal κ V)) (k : κ) (a : AnyVal κ V) :
    findEntry (setEntry l k a) k = some a := by
  induction l with
  | nil => simp [setEntry, findEntry]
  | cons e rest ih =>
    obtain ⟨k', a'⟩ := e
    by_cases h : k' = k
    · simp [setEntry, findEntry, h]
    · simp [setEntry, findEntry, h, ih]

theorem findEntry_setEntry_other {κ : Type} {V : κ → Type} [DecidableEq κ]
    (l : List (κ × AnyVal κ V)) (k k' : κ) (a : AnyVal κ V) (hne : k' ≠ k) :
    findEntry (setEntry l k a) k' = findEntry l k' := by
  induction l with
  | nil => simp [setEntry, findEntry, Ne.symm hne]
  | cons e rest ih =>
    obtain ⟨k0, a0⟩ := e
    by_cases h : k0 = k
    · subst h
      simp [setEntry, findEntry, Ne.symm hne]
    · simp [setEntry, findEntry, h, ih]

theorem castVal_self {κ : Type} {V : κ → Type} [DecidableEq κ]
    (k : κ) (v : V k) : castVal (⟨k, v⟩ : AnyVal κ V) k = some v := by
  simp [castVal]

theorem Bag.get_set_self {κ : Type} {V : κ → Type} [DecidableEq κ]
    (b : Bag κ V) (k : κ) (v : V k) : (b.set k v).get k = some v := by
  simp [Bag.get, Bag.set, findEntry_setEntry_self, castVal_self]

theorem Bag.get_set_other {κ : Type} {V : κ → Type} [DecidableEq κ]
    (b : Bag κ V) (k k' : κ) (v : V k) (hne : k' ≠ k) :
    (b.set k v).get k' = b.get k' := by
  simp [Bag.get, Bag.set, findEntry_setEntry_other _ _ _ _ hne]

theorem Bag.get_of_not_hasKey {κ : Type} {V : κ → Type} [DecidableEq κ]
    (b : Bag κ V) (k : κ) (h : b.hasKey k = false) : b.get k = none := by
  unfold Bag.hasKey at h
  unfold Bag.get
  cases hf : findEntry b.items k with
  | none => rfl
  | some a => rw [hf] at h; simp at h

theorem cacheLookup_withContext_other (c : SymbolCache) (m n : NodeId)
    (s : Symbol) (hne : m ≠ n) :
    cacheLookup (withContext c m s) n = cacheLookup c n := by
  unfold withContext
  by_cases h : (cacheLookup c m).isSome
  · simp [h]
  · simp [h, cacheLookup, hne]

theorem cacheLookup_withContext_new (c : SymbolCache) (n : NodeId)
    (s : Symbol) (habs : cacheLookup c n = none) :
    cacheLookup (withContext c n s) n = some s := by
  unfold withContext
  simp [habs, cacheLookup]

theorem runOps_stable (ops : List SMOp) (c : SymbolCache) (n : NodeId)
    (s : Symbol) (h : cacheLookup c n = some s) :
    cacheLookup (runOps c ops) n = some s := by
  induction ops generalizing c with
  | nil => exact h
  | cons op rest ih =>
    obtain ⟨m, s'⟩ := op
    by_cases hm : m = n
    · subst hm
      have : withContext c m s' = c := by
        unfold withContext
        simp [h]
      rw [runOps, this]
      exact ih c h
    · rw [runOps]
      exact ih _ ((cacheLookup_withContext_other c m n s' hm).trans h)

theorem runOps_untouched (ops : List SMOp) (c : SymbolCache) (n : NodeId)
    (h : regsFor n ops = []) :
    cacheLookup (runOps c ops) n = cacheLookup c n := by
  induction ops generalizing c with
  | nil => rfl
  | cons op rest ih =>
    obtain ⟨m, s'⟩ := op
    by_cases hm : m = n
    · subst hm
      simp [regsFor, List.filterMap_cons] at h
    · have hrest : regsFor n rest = [] := by
        simpa [regsFor, List.filterMap_cons, hm] using h
      rw [runOps]
      exact (ih _ hrest).trans (cacheLookup_withContext_other c m n s' hm)

theorem checkDirs_count (ds : List Directive) (args : List Expression)
    (h : checkDirs ds args = true) : convCount ds = args.length := by
  induction ds generalizing args with
  | nil =>
    cases args with
    | nil => rfl
    | cons x xs => simp [checkDirs] at h
  | cons d ds ih =>
    cases d with
    | lit s =>
      rw [checkDirs] at h
      simpa [convCount] using ih args h
    | conv k =>
      cases args with
      | nil => simp [checkDirs] at h
      | cons x xs =>
        rw [checkDirs, Bool.and_eq_true] at h
        simp [convCount, ih xs h.2, List.length_cons, Nat.add_comm]

theorem foldDirs_count (ds : List Directive) (args : List Expression)
    (t : String) (h : foldDirs ds args = some t) : convCount ds = args.length := by
  induction ds generalizing args t with
  | nil =>
    cases args with
    | nil => rfl
    | cons x xs => simp [foldDirs] at h
  | cons d ds ih =>
    cases d with
    | lit s =>
      rw [foldDirs] at h
      obtain ⟨t', ht', _⟩ := Option.map_eq_some'.mp h
      simpa [convCount] using ih args t' ht'
    | conv k =>
      cases args with
      | nil => simp [foldDirs] at h
      | cons x xs =>
        rw [foldDirs] at h
        by_cases htk : typeOk k x.type
        · rw [if_pos htk] at h
          cases hxc : x.const with
          | none => rw [hxc] at h; simp at h
          | some v =>
            rw [hxc, Option.some_bind] at h
            cases hr : renderConv k v with
            | none => rw [hr] at h; simp at h
            | some txt =>
              rw [hr, Option.some_bind] at h
              obtain ⟨t', ht', _⟩ := Option.map_eq_some'.mp h
              simp [convCount, ih xs t' ht', List.length_cons, Nat.add_comm]
        · rw [if_neg htk] at h; simp at h

theorem foldDirs_nonconst (ds : List Directive) (args : List Expression)
    (a : Expression) (ha : a ∈ args) (hc : a.const = none) :
    foldDirs ds args = none := by
  induction ds generalizing args with
  | nil =>
    cases args with
    | nil => simp at ha
    | cons x xs => rfl
  | cons d ds ih =>
    cases d with
    | lit s => rw [foldDirs, ih args ha] ; rfl
    | conv k =>
      cases args with
      | nil => simp at ha
      | cons x xs =>
        rcases List.mem_cons.mp ha with h | h
        · subst h
          cases htk : typeOk k a.type <;> simp [foldDirs, htk, hc]
        · cases htk : typeOk k x.type
          · simp [foldDirs, htk]
          · cases hxc : x.const with
            | none => simp [foldDirs, htk, hxc]
            | some v =>
              cases hr : renderConv k v <;>
                simp [foldDirs, htk, hxc, hr, ih xs h]

theorem formatDisplay_nonconst (args : List Expression) (a : Expression)
    (ha : a ∈ args) (hc : a.const = none) : formatDisplay args = none := by
  induction args with
  | nil => simp at ha
  | cons x xs ih =>
    rcases List.mem_cons.mp ha with h | h
    · subst h
      simp [formatDisplay, hc]
    · cases hxc : x.const with
      | none => simp [formatDisplay, hxc]
      | some v =>
        cases hr : defaultRender x.type v <;>
          simp [formatDisplay, hxc, hr, ih h]

theorem runOps_once_aux (ops : List SMOp) (c : SymbolCache) (n : NodeId)
    (s : Symbol) (habs : cacheLookup c n = none) (h : regsFor n ops = [s]) :
    cacheLookup (runOps c ops) n = some s := by
  induction ops generalizing c with
  | nil => simp [regsFor] at h
  | cons op rest ih =>
    obtain ⟨m, s'⟩ := op
    by_cases hm : m = n
    · subst hm
      rw [regsFor, List.filterMap_cons] at h
      simp only [if_pos rfl] at h
      obtain ⟨hs, hrest⟩ := List.cons_eq_cons.mp h
      subst hs
      rw [runOps]
      exact runOps_stable rest _ m s' (cacheLookup_withContext_new c m s' habs)
    · have hrest : regsFor n rest = [s] := by
        simpa [regsFor, List.filterMap_cons, hm] using h
      rw [runOps]
      exact ih _ ((cacheLookup_withContext_other c m n s' hm).trans habs) hrest

/-- C1: once `(N, S)` is registered exactly once via `withContext` during a
compilation history, `getDeclaredSymbol(N)` returns exactly `S` afterwards:
the mapping is stable and the symbol is never replaced (write-once
memoization, idempotent read). -/
theorem registered_once_lookup_stable (ops : List SMOp) (n : NodeId)
    (s : Symbol) (h : regsFor n ops = [s]) :
    getDeclaredSymbol (runOps [] ops) n = some s :=
  runOps_once_aux ops [] n s rfl h

/-- Witness for C1 at a concrete two-registration history. -/
theorem registered_once_lookup_stable_witness :
    regsFor 1 [SMOp.register 1 ⟨10, SymbolKind.hierInstance⟩,
        SMOp.register 2 ⟨11, SymbolKind.enumType⟩] =
      [⟨10, SymbolKind.hierInstance⟩] ∧
      getDeclaredSymbol (runOps [] [SMOp.register 1 ⟨10, SymbolKind.hierInstance⟩,
        SMOp.register 2 ⟨11, SymbolKind.enumType⟩]) 1 =
        some ⟨10, SymbolKind.hierInstance⟩ :=
  ⟨by decide,
    registered_once_lookup_stable
      [SMOp.register 1 ⟨10, SymbolKind.hierInstance⟩,
        SMOp.register 2 ⟨11, SymbolKind.enumType⟩] 1
      ⟨10, SymbolKind.hierInstance⟩ (by decide)⟩

/-- C2: a syntax node never registered via `withContext` looks up to "no
mapping" (`none`), never a stale or synthesized symbol; absence is a normal
outcome and the cache stores no negative results. -/
theorem unregistered_lookup_none (ops : List SMOp) (n : NodeId)
    (h : regsFor n ops = []) : getDeclaredSymbol (runOps [] ops) n = none :=
  runOps_untouched ops [] n h

/-- Witness for C2: node 5 is never registered in the concrete history. -/
theorem unregistered_lookup_none_witness :
    regsFor 5 [SMOp.register 1 ⟨10, SymbolKind.hierInstance⟩,
        SMOp.register 2 ⟨11, SymbolKind.enumType⟩] = [] ∧
      getDeclaredSymbol (runOps [] [SMOp.register 1 ⟨10, SymbolKind.hierInstance⟩,
        SMOp.register 2 ⟨11, SymbolKind.enumType⟩]) 5 = none :=
  ⟨by decide,
    unregistered_lookup_none
      [SMOp.register 1 ⟨10, SymbolKind.hierInstance⟩,
        SMOp.register 2 ⟨11, SymbolKind.enumType⟩] 5 (by decide)⟩

/-- C8: each typed `getDeclaredSymbol` overload is a pure narrowing
projection of the single untyped cache: whenever it returns a symbol, that
symbol is exactly the untyped result and has the overload's variant; on a
variant mismatch it fails loudly rather than returning the wrong symbol. -/
theorem typed_lookup_sound (c : SymbolCache) (n : NodeId) (k : SymbolKind)
    (s : Symbol) :
    (getDeclaredSymbolTyped c n k = Except.ok (some s) →
        s.kind = k ∧ getDeclaredSymbol c n = some s) ∧
      (getDeclaredSymbol c n = some s → s.kind ≠ k →
        getDeclaredSymbolTyped c n k = Except.error ()) := by
  cases hg : getDeclaredSymbol c n with
  | none =>
    refine ⟨fun h => ?_, fun h _ => ?_⟩
    · unfold getDeclaredSymbolTyped at h
      rw [hg] at h
      simp at h
    · simp at h
  | some s' =>
    refine ⟨fun h => ?_, fun h hne => ?_⟩
    · unfold getDeclaredSymbolTyped at h
      rw [hg] at h
      by_cases hk : s'.kind = k
      · simp [hk] at h
        exact ⟨h ▸ hk, by rw [h]⟩
      · simp [hk] at h
    · have hs : s' = s := Option.some.inj h
      subst hs
      unfold getDeclaredSymbolTyped
      rw [hg]
      simp [hne]

/-- Witness for C8 at a concrete one-entry cache. -/
theorem typed_lookup_sound_witness :
    (⟨10, SymbolKind.hierInstance⟩ : Symbol).kind = SymbolKind.hierInstance ∧
      getDeclaredSymbol [(1, ⟨10, SymbolKind.hierInstance⟩)] 1 =
        some ⟨10, SymbolKind.hierInstance⟩ :=
  (typed_lookup_sound [(1, ⟨10, SymbolKind.hierInstance⟩)] 1
    SymbolKind.hierInstance ⟨10, SymbolKind.hierInstance⟩).1 rfl

/-- C3: if any argument in the list is not compile-time constant-evaluable,
`formatArgs` and `formatDisplay` return the empty optional — never a partial
formatted string — independently of whether binding succeeded. -/
theorem nonconst_arg_no_folded_text (fmt : String) (args : List Expression)
    (isStringLiteral : Bool) (h : ∃ a ∈ args, a.const = none) :
    (formatArgs fmt args isStringLiteral).text = none ∧
      formatDisplay args = none := by
  obtain ⟨a, ha, hc⟩ := h
  refine ⟨?_, formatDisplay_nonconst args a ha hc⟩
  unfold formatArgs
  cases hd : dirsOf fmt isStringLiteral with
  | none => rfl
  | some ds => simp [foldDirs_nonconst ds args a ha hc]

/-- Witness for C3: a single non-constant integer argument under `"%d"`. -/
theorem nonconst_arg_no_folded_text_witness :
    (formatArgs "%d" [⟨ArgType.int, false, none⟩] true).text = none ∧
      formatDisplay [⟨ArgType.int, false, none⟩] = none :=
  nonconst_arg_no_folded_text "%d" [⟨ArgType.int, false, none⟩] true
    ⟨⟨ArgType.int, false, none⟩, by decide, rfl⟩

/-- C4: `"%d"` bound against the constant integer 7 folds to `"7"`, and
`"%d %s"` bound against constants (3, "x") folds to `"3 x"`. -/
theorem formatArgs_literal_examples :
    (formatArgs "%d" [⟨ArgType.int, false, some (CValue.intV 7)⟩] true).text =
      some "7" ∧
      (formatArgs "%d %s" [⟨ArgType.int, false, some (CValue.intV 3)⟩,
        ⟨ArgType.str, true, some (CValue.strV "x")⟩] true).text = some "3 x" := by
  decide

/-- C5: for a literal format string whose conversion-directive count differs
from the number of arguments, `formatArgs` fails the bind (the mismatch is
diagnosed) and produces no formatted result. -/
theorem formatArgs_count_mismatch_fails (fmt : String) (args : List Expression)
    (isStringLiteral : Bool) (ds : List Directive)
    (hd : dirsOf fmt isStringLiteral = some ds)
    (hcnt : convCount ds ≠ args.length) :
    (formatArgs fmt args isStringLiteral).bindOk = false ∧
      (formatArgs fmt args isStringLiteral).text = none := by
  unfold formatArgs
  rw [hd]
  refine ⟨?_, ?_⟩
  · cases hck : checkDirs ds args with
    | false => simp [hck]
    | true => exact absurd (checkDirs_count ds args hck) hcnt
  · cases hfd : foldDirs ds args with
    | none => simp [hfd]
    | some t => exact absurd (foldDirs_count ds args t hfd) hcnt

/-- Witness for C5: `"%d %s"` (two directives) against one argument. -/
theorem formatArgs_count_mismatch_fails_witness :
    (formatArgs "%d %s" [⟨ArgType.int, false, some (CValue.intV 3)⟩] true).bindOk =
      false ∧
      (formatArgs "%d %s" [⟨ArgType.int, false, some (CValue.intV 3)⟩] true).text =
        none :=
  formatArgs_count_mismatch_fails "%d %s"
    [⟨ArgType.int, false, some (CValue.intV 3)⟩] true
    [Directive.conv ConvKind.dec, Directive.lit " ",
      Directive.conv ConvKind.strConv] (by decide) (by decide)

/-- C6: when the first argument is a dynamic (non-literal) format string of
string type, `checkSFormatArgs` checks only per-argument type legality: it
returns `true` exactly when every remaining argument's type is displayable,
never rejecting for directive/argument pairing. -/
theorem checkSFormatArgs_dynamic_typeonly (fmtArg : Expression)
    (rest : List Expression) (ht : fmtArg.type = ArgType.str)
    (hl : fmtArg.isLiteral = false) :
    (checkSFormatArgs (fmtArg :: rest) = true ↔
      ∀ a ∈ rest, displayable a.type = true) := by
  simp [checkSFormatArgs, ht, hl, List.all_eq_true]

/-- Witness for C6: a dynamic string-typed format argument followed by a
well-typed integer argument is accepted. -/
theorem checkSFormatArgs_dynamic_typeonly_witness :
    checkSFormatArgs [⟨ArgType.str, false, none⟩, ⟨ArgType.int, false, none⟩] =
      true :=
  (checkSFormatArgs_dynamic_typeonly ⟨ArgType.str, false, none⟩
    [⟨ArgType.int, false, none⟩] rfl rfl).mpr (by decide)

/-- C7: `checkFinishNum` returns `true` exactly when the argument is an
integral compile-time constant whose value is one of the legal
simulation-control codes 0, 1, 2; every other constant and every
non-constant argument is rejected. -/
theorem checkFinishNum_iff (arg : Expression) :
    checkFinishNum arg = true ↔
      arg.type = ArgType.int ∧ ∃ i : Int,
        arg.const = some (CValue.intV i) ∧ (i = 0 ∨ i = 1 ∨ i = 2) := by
  obtain ⟨t, l, c⟩ := arg
  cases t with
  | int =>
    cases c with
    | none => simp [checkFinishNum]
    | some v =>
      cases v with
      | intV i => simp [checkFinishNum]
      | strV s => simp [checkFinishNum]
  | str =>
    cases c with
    | none => simp [checkFinishNum]
    | some v => cases v <;> simp [checkFinishNum]
  | event =>
    cases c with
    | none => simp [checkFinishNum]
    | some v => cases v <;> simp [checkFinishNum]

/-- Witness for C7: the control code 2 is accepted. -/
theorem checkFinishNum_iff_witness :
    checkFinishNum ⟨ArgType.int, false, some (CValue.intV 2)⟩ = true :=
  (checkFinishNum_iff ⟨ArgType.int, false, some (CValue.intV 2)⟩).mpr
    ⟨rfl, 2, rfl, by decide⟩

/-- C9: the `Bag` round-trip law — after `set(v)` at key `k`, `get` returns
`v` and `getOrDefault` returns `v`; for a key never stored, `get` returns
null and `getOrDefault` returns a default-constructed value. -/
theorem bag_get_set_roundtrip {κ : Type} {V : κ → Type} [DecidableEq κ]
    [∀ k, Inhabited (V k)] (b : Bag κ V) (k : κ) (v : V k) :
    ((b.set k v).get k = some v ∧ (b.set k v).getOrDefault k = v) ∧
      (b.hasKey k = false → b.get k = none ∧ b.getOrDefault k = default) := by
  refine ⟨⟨Bag.get_set_self b k v, ?_⟩, fun h => ?_⟩
  · unfold Bag.getOrDefault
    rw [Bag.get_set_self]
  · have hg := Bag.get_of_not_hasKey b k h
    refine ⟨hg, ?_⟩
    unfold Bag.getOrDefault
    rw [hg]

/-- Witness for C9 at a concrete `Nat`-valued bag. -/
theorem bag_get_set_roundtrip_witness :
    ((Bag.set (⟨[]⟩ : Bag Nat (fun _ => Nat)) 0 5).get 0 = some 5 ∧
        (Bag.set (⟨[]⟩ : Bag Nat (fun _ => Nat)) 0 5).getOrDefault 0 = 5) ∧
      ((⟨[]⟩ : Bag Nat (fun _ => Nat)).get 0 = none ∧
        (⟨[]⟩ : Bag Nat (fun _ => Nat)).getOrDefault 0 = default) :=
  have h := bag_get_set_roundtrip (⟨[]⟩ : Bag Nat (fun _ => Nat)) 0 5
  ⟨h.1, h.2 rfl⟩

/-- C10: `Bag::set` is last-write-wins — after `set(v1)` then `set(v2)` at
the same key, `get` returns `v2`, and every other key's entry is
unchanged. -/
theorem bag_set_last_write_wins {κ : Type} {V : κ → Type} [DecidableEq κ]
    (b : Bag κ V) (k : κ) (v₁ v₂ : V k) :
    ((b.set k v₁).set k v₂).get k = some v₂ ∧
      ∀ k', k' ≠ k → ((b.set k v₁).set k v₂).get k' = b.get k' :=
  ⟨Bag.get_set_self (b.set k v₁) k v₂, fun k' h =>
    (Bag.get_set_other (b.set k v₁) k k' v₂ h).trans
      (Bag.get_set_other b k k' v₁ h)⟩

/-- Witness for C10: overwriting key 0 twice in a concrete bag. -/
theorem bag_set_last_write_wins_witness :
    ((Bag.set (Bag.set (⟨[]⟩ : Bag Nat (fun _ => Nat)) 0 1) 0 2).get 0 =
        some 2) ∧
      ((Bag.set (Bag.set (⟨[]⟩ : Bag Nat (fun _ => Nat)) 0 1) 0 2).get 1 =
        (⟨[]⟩ : Bag Nat (fun _ => Nat)).get 1) :=
  have h := bag_set_last_write_wins (⟨[]⟩ : Bag Nat (fun _ => Nat)) 0 1 2
  ⟨h.1, h.2 1 (by decide)⟩

end Slang
